import Mathlib

/-!
Shallow embedding of the `idgen` Go library (idgen.go).

Machine `int64` values are modelled as their 64-bit two's-complement bit
patterns, i.e. natural numbers below `2 ^ 64`; every arithmetic step the Go
code performs on an `int64` is followed by an explicit reduction modulo
`2 ^ 64`.  Fallible generator calls return `Except Err Nat`; stateful
generators thread their state explicitly.
-/

namespace Idgen

/-- The modulus of 64-bit machine words. -/
def MOD : Nat := 2 ^ 64

/-- Reduce a natural number to a 64-bit bit pattern. -/
def wrap64 (x : Nat) : Nat := x % MOD

/-- 64-bit wraparound subtraction on bit patterns (Go `x - y` on `int64`). -/
def sub64 (x y : Nat) : Nat := (x + (MOD - y % MOD)) % MOD

/-- Bitwise complement on 64-bit patterns (Go `^x` on `int64`). -/
def not64 (x : Nat) : Nat := (MOD - 1) ^^^ (x % MOD)

/-- The signed value represented by a 64-bit pattern (two's complement). -/
def toInt (x : Nat) : Int :=
  if x % MOD < 2 ^ 63 then ((x % MOD : Nat) : Int)
  else ((x % MOD : Nat) : Int) - (MOD : Int)

/-- Bit pattern of the smallest signed 64-bit integer, Go `int64(-(1 << 63))`
(the seed used by `NewNegSequential`). -/
def minInt64 : Nat := 2 ^ 63

/-- Identity of a generator, standing in for the `%T`/`%v` information that
the Go code interpolates into its error strings. -/
inductive GenId where
  | constantG (v : Nat)
  | sequentialG
  | tstampG
  deriving DecidableEq, Repr

/-- The two error kinds produced by the library: a rejected batch count
(`checkNIsOne`) and an overflow (`overflowChecker.NewIDs`), each carrying the
data the Go error message carries. -/
inductive Err where
  | rangeErr (g : GenId) (max n : Nat)
  | overflowErr (g : GenId) (bits : Nat)
  deriving DecidableEq, Repr

/-- Go `checkNIsOne(gen, max, n)`: errors unless `n = max`. -/
def checkNIsOne (g : GenId) (max n : Nat) : Option Err :=
  if n ≠ max then some (.rangeErr g max n) else none

/-- Go `constant.NewIDs`: always returns the constant, only accepts `n = 1`. -/
def constantNewIDs (c n : Nat) : Except Err Nat :=
  match checkNIsOne (.constantG c) 1 n with
  | some e => .error e
  | none => .ok c

/-- Go `tstamp.NewIDs`: returns the machine clock in milliseconds, only
accepts `n = 1`.  The clock reading is an input `now` of the model. -/
def tstampNewIDs (now n : Nat) : Except Err Nat :=
  match checkNIsOne .tstampG 1 n with
  | some e => .error e
  | none => .ok (wrap64 now)

/-- Go `NewOverflowChecker`'s stored mask: `^(1<<allowedBits - 1)` on `int64`. -/
def overflowBitsOf (allowedBits : Nat) : Nat :=
  not64 (sub64 (wrap64 (1 <<< allowedBits)) 1)

/-- Go `overflowChecker.NewIDs`: run the wrapped generator, propagate its
error, otherwise fail iff the result intersects the overflow mask.  The
wrapped generator is an arbitrary state-threading function. -/
def overflowCheckerNewIDs {σ : Type} (gid : GenId) (overflowBits : Nat)
    (gen : Nat → σ → Except Err Nat × σ) (n : Nat) (s : σ) :
    Except Err Nat × σ :=
  match gen n s with
  | (.error e, s1) => (.error e, s1)
  | (.ok v, s1) =>
    if v &&& overflowBits ≠ 0 then
      (.error (.overflowErr gid (v &&& overflowBits)), s1)
    else
      (.ok v, s1)

/-- Go `shifted.NewIDs`: run the wrapped generator, propagate its error,
otherwise left-shift the result by `bits` (as a 64-bit machine shift). -/
def shiftedNewIDs {σ : Type} (gen : Nat → σ → Except Err Nat × σ)
    (bits n : Nat) (s : σ) : Except Err Nat × σ :=
  match gen n s with
  | (.error e, s1) => (.error e, s1)
  | (.ok v, s1) => (.ok (wrap64 (v <<< bits)), s1)

/-- Go `sequential.NewIDs`: atomically add `n` to the counter and return the
new value; never fails.  The state is the counter's bit pattern. -/
def sequentialNewIDs (n value : Nat) : Except Err Nat × Nat :=
  let v := wrap64 (value + n)
  (.ok v, v)

/-- Go `sequential.reset`: store `v` into the counter. -/
def sequentialReset (v : Nat) : Nat := wrap64 v

/-- Go `NewSequential` / the `sequential{value: s}` literal: a counter seeded
at the bit pattern of `s`. -/
def mkSequential (s : Nat) : Nat := wrap64 s

/-- The timestamp field of the snowflake composite:
`shifted{gen: NewOverflowChecker(41, NewTimestamp()), bits: 22}`, evaluated at
clock reading `now` with batch count `n`.  Stateless, so the state is `Unit`
and only the result is kept. -/
def tstampField (now n : Nat) : Except Err Nat :=
  (shiftedNewIDs
    (fun m (u : Unit) =>
      overflowCheckerNewIDs .tstampG (overflowBitsOf 41)
        (fun m1 (u1 : Unit) => (tstampNewIDs now m1, u1)) m u)
    22 n ()).1

/-- The node field of the snowflake composite:
`shifted{gen: NewOverflowChecker(10, constant(nodeMask)), bits: 12}`. -/
def nodeField (nodeMask n : Nat) : Except Err Nat :=
  (shiftedNewIDs
    (fun m (u : Unit) =>
      overflowCheckerNewIDs (.constantG nodeMask) (overflowBitsOf 10)
        (fun m1 (u1 : Unit) => (constantNewIDs nodeMask m1, u1)) m u)
    12 n ()).1

/-- The mutable state of a `snowflake` instance: the last-seen (already
shifted) timestamp and the internal `sequential` counter it owns. -/
structure Snowflake where
  lastTimestamp : Nat
  seqValue : Nat
  deriving DecidableEq, Repr

/-- Go `NewSnowflake`'s initial state: zero last-seen timestamp and a zero
sequence counter.  Construction never fails, for any node mask. -/
def mkSnowflake : Snowflake := { lastTimestamp := 0, seqValue := 0 }

/-- Go `snowflake.NewIDs(n)` at clock reading `now`, with the node mask fixed
at construction time passed as a parameter.  Mirrors the source line by line:
read the (shifted, overflow-checked) timestamp; on a tick boundary reset the
sequence to `n - 1` and record the new timestamp, otherwise advance the
sequence through the width-12 overflow checker; then read the node field; OR
the three fields. -/
def snowflakeNewIDs (nodeMask now n : Nat) (s : Snowflake) :
    Except Err Nat × Snowflake :=
  match tstampField now 1 with
  | .error e => (.error e, s)
  | .ok tstamp =>
    if tstamp ≠ s.lastTimestamp then
      let seqNum := sub64 n 1
      let s1 : Snowflake :=
        { lastTimestamp := tstamp, seqValue := sequentialReset seqNum }
      match nodeField nodeMask 1 with
      | .error e => (.error e, s1)
      | .ok nodeM => (.ok (tstamp ||| nodeM ||| seqNum), s1)
    else
      match overflowCheckerNewIDs .sequentialG (overflowBitsOf 12)
          (fun m v => sequentialNewIDs m v) n s.seqValue with
      | (.error e, v1) => (.error e, { s with seqValue := v1 })
      | (.ok seqNum, v1) =>
        match nodeField nodeMask 1 with
        | .error e => (.error e, { s with seqValue := v1 })
        | .ok nodeM =>
          (.ok (tstamp ||| nodeM ||| seqNum), { s with seqValue := v1 })

/-- Run a sequential counter through a list of batch counts, collecting the
returned IDs in order (used to state the repeated-call properties). -/
def runSeq : List Nat → Nat → List Nat
  | [], _ => []
  | k :: ks, v =>
    match sequentialNewIDs k v with
    | (.ok o, v1) => o :: runSeq ks v1
    | (.error _, v1) => runSeq ks v1

end Idgen

namespace Idgen

theorem MOD_pos : 0 < MOD := by decide

theorem wrap64_lt (x : Nat) : wrap64 x < MOD := Nat.mod_lt _ MOD_pos

theorem wrap64_eq_of_lt {x : Nat} (h : x < MOD) : wrap64 x = x := Nat.mod_eq_of_lt h

theorem wrap64_sub64 (x y : Nat) : wrap64 (sub64 x y) = sub64 x y := Nat.mod_mod _ _

theorem sub64_lt (x y : Nat) : sub64 x y < MOD := Nat.mod_lt _ MOD_pos

theorem sub64_one_eq {n : Nat} (h1 : 1 ≤ n) (h2 : n < MOD) : sub64 n 1 = n - 1 := by
  unfold sub64
  have h3 : (1 : Nat) % MOD = 1 := by decide
  have h4 : n + (MOD - 1 % MOD) = MOD + (n - 1) := by omega
  rw [h4, Nat.add_mod_left]
  exact Nat.mod_eq_of_lt (by omega)

theorem two_pow_le_two_pow {a b : Nat} (h : a ≤ b) : (2 : Nat) ^ a ≤ 2 ^ b :=
  Nat.pow_le_pow_right (by omega) h

theorem testBit_ovBits {w : Nat} (hw : w ≤ 63) (i : Nat) :
    (overflowBitsOf w).testBit i = (decide (w ≤ i) && decide (i < 64)) := by
  have hlt : (2 : Nat) ^ w < MOD :=
    lt_of_le_of_lt (two_pow_le_two_pow hw) (by decide)
  have h1 : wrap64 (1 <<< w) = 2 ^ w := by
    rw [Nat.shiftLeft_eq, one_mul]; exact wrap64_eq_of_lt hlt
  have h2 : sub64 (2 ^ w) 1 = 2 ^ w - 1 :=
    sub64_one_eq (Nat.one_le_two_pow) hlt
  have h3 : (2 ^ w - 1) % MOD = 2 ^ w - 1 := Nat.mod_eq_of_lt (by omega)
  unfold overflowBitsOf not64
  rw [h1, h2, h3]
  have hM : MOD - 1 = 2 ^ 64 - 1 := rfl
  rw [hM, Nat.testBit_xor, Nat.testBit_two_pow_sub_one, Nat.testBit_two_pow_sub_one]
  by_cases hi : i < w <;> by_cases hj : i < 64 <;>
    simp [hi, hj] <;> omega

theorem land_ovBits_eq_zero_iff {w v : Nat} (hw : w ≤ 63) (hv : v < MOD) :
    v &&& overflowBitsOf w = 0 ↔ v < 2 ^ w := by
  constructor
  · intro h
    apply Nat.lt_pow_two_of_testBit
    intro i hi
    by_cases h64 : i < 64
    · have hb : (v &&& overflowBitsOf w).testBit i = false := by
        rw [h]; exact Nat.zero_testBit i
      rw [Nat.testBit_and, testBit_ovBits hw] at hb
      simpa [hi, h64] using hb
    · exact Nat.testBit_lt_two_pow
        (lt_of_lt_of_le hv (two_pow_le_two_pow (by omega)))
  · intro h
    apply Nat.eq_of_testBit_eq
    intro i
    rw [Nat.testBit_and, testBit_ovBits hw, Nat.zero_testBit]
    by_cases hiw : w ≤ i
    · have : v.testBit i = false :=
        Nat.testBit_lt_two_pow (lt_of_lt_of_le h (two_pow_le_two_pow hiw))
      simp [this]
    · simp [hiw]

theorem lor_lt {a b k : Nat} (ha : a < 2 ^ k) (hb : b < 2 ^ k) :
    a ||| b < 2 ^ k := by
  apply Nat.lt_pow_two_of_testBit
  intro i hi
  rw [Nat.testBit_or]
  have h1 := Nat.testBit_lt_two_pow (lt_of_lt_of_le ha (two_pow_le_two_pow hi))
  have h2 := Nat.testBit_lt_two_pow (lt_of_lt_of_le hb (two_pow_le_two_pow hi))
  simp [h1, h2]

end Idgen

namespace Idgen

theorem testBit_mul_shift {m k i : Nat} :
    (m * 2 ^ k).testBit i = (decide (k ≤ i) && m.testBit (i - k)) := by
  rw [← Nat.shiftLeft_eq, Nat.testBit_shiftLeft]

theorem combined_low12 {m nm c : Nat} (hc : c < 2 ^ 12) :
    (m * 2 ^ 22 ||| nm * 2 ^ 12 ||| c) &&& (2 ^ 12 - 1) = c := by
  rw [Nat.and_pow_two_sub_one_eq_mod]
  apply Nat.eq_of_testBit_eq
  intro i
  rw [Nat.testBit_mod_two_pow]
  by_cases hi : i < 12
  · have h1 : (m * 2 ^ 22).testBit i = false := by
      rw [testBit_mul_shift]; simp [Nat.not_le.mpr (by omega : i < 22)]
    have h2 : (nm * 2 ^ 12).testBit i = false := by
      rw [testBit_mul_shift]; simp [Nat.not_le.mpr hi]
    rw [Nat.testBit_or, Nat.testBit_or, h1, h2]
    simp [hi]
  · have : c.testBit i = false :=
      Nat.testBit_lt_two_pow (lt_of_lt_of_le hc (two_pow_le_two_pow (by omega)))
    simp [hi, this]

theorem combined_shift22 {m nm c : Nat} (hnm : nm < 2 ^ 10) (hc : c < 2 ^ 12) :
    (m * 2 ^ 22 ||| nm * 2 ^ 12 ||| c) >>> 22 = m := by
  apply Nat.eq_of_testBit_eq
  intro i
  rw [Nat.testBit_shiftRight, Nat.testBit_or, Nat.testBit_or]
  have hnd : (nm * 2 ^ 12).testBit (22 + i) = false := by
    apply Nat.testBit_lt_two_pow
    calc nm * 2 ^ 12 < 2 ^ 10 * 2 ^ 12 := by
          exact (Nat.mul_lt_mul_right (by norm_num)).mpr hnm
      _ = 2 ^ 22 := by norm_num
      _ ≤ 2 ^ (22 + i) := two_pow_le_two_pow (by omega)
  have hcb : c.testBit (22 + i) = false :=
    Nat.testBit_lt_two_pow
      (lt_of_lt_of_le hc (two_pow_le_two_pow (by omega)))
  rw [hnd, hcb, testBit_mul_shift]
  simp [(by omega : 22 ≤ 22 + i), (by omega : 22 + i - 22 = i)]

theorem combined_node {m nm c : Nat} (hnm : nm < 2 ^ 10) (hc : c < 2 ^ 12) :
    ((m * 2 ^ 22 ||| nm * 2 ^ 12 ||| c) >>> 12) &&& (2 ^ 10 - 1) = nm := by
  rw [Nat.and_pow_two_sub_one_eq_mod]
  apply Nat.eq_of_testBit_eq
  intro i
  rw [Nat.testBit_mod_two_pow]
  by_cases hi : i < 10
  · have hts : (m * 2 ^ 22).testBit (12 + i) = false := by
      rw [testBit_mul_shift]
      simp [Nat.not_le.mpr (by omega : 12 + i < 22)]
    have hcb : c.testBit (12 + i) = false :=
      Nat.testBit_lt_two_pow
        (lt_of_lt_of_le hc (two_pow_le_two_pow (by omega)))
    rw [Nat.testBit_shiftRight, Nat.testBit_or, Nat.testBit_or, hts, hcb,
      testBit_mul_shift]
    simp [hi, (by omega : 12 ≤ 12 + i), (by omega : 12 + i - 12 = i)]
  · have : nm.testBit i = false :=
      Nat.testBit_lt_two_pow (lt_of_lt_of_le hnm (two_pow_le_two_pow (by omega)))
    simp [hi, this]

theorem combined_lt {m nm c : Nat} (hm : m < 2 ^ 41) (hnm : nm < 2 ^ 10)
    (hc : c < 2 ^ 12) : (m * 2 ^ 22 ||| nm * 2 ^ 12 ||| c) < 2 ^ 63 := by
  apply lor_lt
  apply lor_lt
  · calc m * 2 ^ 22 < 2 ^ 41 * 2 ^ 22 := (Nat.mul_lt_mul_right (by norm_num)).mpr hm
      _ = 2 ^ 63 := by norm_num
  · calc nm * 2 ^ 12 < 2 ^ 10 * 2 ^ 12 := (Nat.mul_lt_mul_right (by norm_num)).mpr hnm
      _ = 2 ^ 22 := by norm_num
      _ ≤ 2 ^ 63 := by norm_num
  · exact lt_of_lt_of_le hc (by norm_num)

end Idgen

namespace Idgen

theorem tstampField_one (now : Nat) :
    tstampField now 1 =
      if wrap64 now &&& overflowBitsOf 41 ≠ 0 then
        .error (.overflowErr .tstampG (wrap64 now &&& overflowBitsOf 41))
      else .ok (wrap64 (wrap64 now <<< 22)) := by
  by_cases h : wrap64 now &&& overflowBitsOf 41 = 0 <;>
    simp [tstampField, shiftedNewIDs, overflowCheckerNewIDs, tstampNewIDs,
      checkNIsOne, h]

theorem nodeField_one (nodeMask : Nat) :
    nodeField nodeMask 1 =
      if nodeMask &&& overflowBitsOf 10 ≠ 0 then
        .error (.overflowErr (.constantG nodeMask) (nodeMask &&& overflowBitsOf 10))
      else .ok (wrap64 (nodeMask <<< 12)) := by
  by_cases h : nodeMask &&& overflowBitsOf 10 = 0 <;>
    simp [nodeField, shiftedNewIDs, overflowCheckerNewIDs, constantNewIDs,
      checkNIsOne, h]

theorem tstampField_ok {now : Nat} (h : now < 2 ^ 41) :
    tstampField now 1 = .ok (now * 2 ^ 22) := by
  have hM : now < MOD := lt_of_lt_of_le h (by decide)
  have hz : now &&& overflowBitsOf 41 = 0 :=
    (land_ovBits_eq_zero_iff (by omega) hM).mpr h
  have hs : now <<< 22 = now * 2 ^ 22 := Nat.shiftLeft_eq now 22
  have hlt : now * 2 ^ 22 < MOD := by
    calc now * 2 ^ 22 < 2 ^ 41 * 2 ^ 22 := (Nat.mul_lt_mul_right (by norm_num)).mpr h
      _ ≤ MOD := by decide
  rw [tstampField_one, wrap64_eq_of_lt hM, if_neg (by simp [hz]), hs,
    wrap64_eq_of_lt hlt]

theorem nodeField_ok {nodeMask : Nat} (h : nodeMask < 2 ^ 10) :
    nodeField nodeMask 1 = .ok (nodeMask * 2 ^ 12) := by
  have hM : nodeMask < MOD := lt_of_lt_of_le h (by decide)
  have hz : nodeMask &&& overflowBitsOf 10 = 0 :=
    (land_ovBits_eq_zero_iff (by omega) hM).mpr h
  have hs : nodeMask <<< 12 = nodeMask * 2 ^ 12 := Nat.shiftLeft_eq nodeMask 12
  have hlt : nodeMask * 2 ^ 12 < MOD := by
    calc nodeMask * 2 ^ 12 < 2 ^ 10 * 2 ^ 12 :=
          (Nat.mul_lt_mul_right (by norm_num)).mpr h
      _ ≤ MOD := by decide
  rw [nodeField_one, if_neg (by simp [hz]), hs, wrap64_eq_of_lt hlt]

theorem snowflake_tstampErr {nodeMask now n : Nat} {s : Snowflake} {e : Err}
    (h : tstampField now 1 = .error e) :
    snowflakeNewIDs nodeMask now n s = (.error e, s) := by
  unfold snowflakeNewIDs
  rw [h]

theorem snowflake_newTick {nodeMask now n t : Nat} {s : Snowflake}
    (ht : tstampField now 1 = .ok t) (hne : t ≠ s.lastTimestamp) :
    snowflakeNewIDs nodeMask now n s =
      match nodeField nodeMask 1 with
      | .error e => (.error e, ⟨t, sub64 n 1⟩)
      | .ok nd => (.ok (t ||| nd ||| sub64 n 1), ⟨t, sub64 n 1⟩) := by
  unfold snowflakeNewIDs
  rw [ht]
  simp only [if_pos hne, sequentialReset, wrap64_sub64]

theorem snowflake_sameTick {nodeMask now n t : Nat} {s : Snowflake}
    (ht : tstampField now 1 = .ok t) (heq : t = s.lastTimestamp) :
    snowflakeNewIDs nodeMask now n s =
      if wrap64 (s.seqValue + n) &&& overflowBitsOf 12 ≠ 0 then
        (.error (.overflowErr .sequentialG
            (wrap64 (s.seqValue + n) &&& overflowBitsOf 12)),
          { s with seqValue := wrap64 (s.seqValue + n) })
      else
        match nodeField nodeMask 1 with
        | .error e => (.error e, { s with seqValue := wrap64 (s.seqValue + n) })
        | .ok nd => (.ok (t ||| nd ||| wrap64 (s.seqValue + n)),
            { s with seqValue := wrap64 (s.seqValue + n) }) := by
  unfold snowflakeNewIDs
  rw [ht]
  subst heq
  dsimp only
  rw [if_neg (show ¬(s.lastTimestamp ≠ s.lastTimestamp) from fun hc => hc rfl)]
  simp only [overflowCheckerNewIDs, sequentialNewIDs]
  by_cases h : wrap64 (s.seqValue + n) &&& overflowBitsOf 12 = 0 <;> simp [h]

end Idgen

namespace Idgen

theorem tstampField_ok_inv {now t : Nat} (h : tstampField now 1 = .ok t) :
    ∃ m, m < 2 ^ 41 ∧ t = m * 2 ^ 22 := by
  rw [tstampField_one] at h
  by_cases hz : wrap64 now &&& overflowBitsOf 41 = 0
  · rw [if_neg (by simp [hz])] at h
    have hm : wrap64 now < 2 ^ 41 :=
      (land_ovBits_eq_zero_iff (by omega) (wrap64_lt now)).mp hz
    have hs : wrap64 now <<< 22 = wrap64 now * 2 ^ 22 := Nat.shiftLeft_eq _ _
    have hlt : wrap64 now * 2 ^ 22 < MOD := by
      calc wrap64 now * 2 ^ 22 < 2 ^ 41 * 2 ^ 22 :=
            (Nat.mul_lt_mul_right (by norm_num)).mpr hm
        _ ≤ MOD := by decide
    refine ⟨wrap64 now, hm, ?_⟩
    have ht : t = wrap64 (wrap64 now <<< 22) := (Except.ok.inj h).symm
    rw [ht, hs, wrap64_eq_of_lt hlt]
  · rw [if_pos hz] at h
    exact absurd h (by simp)

theorem nodeField_ok_inv {nodeMask nd : Nat} (hmask : nodeMask < MOD)
    (h : nodeField nodeMask 1 = .ok nd) :
    nodeMask < 2 ^ 10 ∧ nd = nodeMask * 2 ^ 12 := by
  rw [nodeField_one] at h
  by_cases hz : nodeMask &&& overflowBitsOf 10 = 0
  · rw [if_neg (by simp [hz])] at h
    have hm : nodeMask < 2 ^ 10 := (land_ovBits_eq_zero_iff (by omega) hmask).mp hz
    have hs : nodeMask <<< 12 = nodeMask * 2 ^ 12 := Nat.shiftLeft_eq _ _
    have hlt : nodeMask * 2 ^ 12 < MOD := by
      calc nodeMask * 2 ^ 12 < 2 ^ 10 * 2 ^ 12 :=
            (Nat.mul_lt_mul_right (by norm_num)).mpr hm
        _ ≤ MOD := by decide
    have hnd : nd = wrap64 (nodeMask <<< 12) := (Except.ok.inj h).symm
    exact ⟨hm, by rw [hnd, hs, wrap64_eq_of_lt hlt]⟩
  · rw [if_pos hz] at h
    exact absurd h (by simp)

theorem snowflake_ok_inv {nodeMask now n : Nat} {s s1 : Snowflake} {v : Nat}
    (h : snowflakeNewIDs nodeMask now n s = (.ok v, s1)) :
    ∃ t nd c, tstampField now 1 = .ok t ∧ nodeField nodeMask 1 = .ok nd ∧
      v = t ||| nd ||| c ∧ s1 = ⟨t, c⟩ ∧
      ((t ≠ s.lastTimestamp ∧ c = sub64 n 1) ∨
       (t = s.lastTimestamp ∧ c = wrap64 (s.seqValue + n) ∧
         c &&& overflowBitsOf 12 = 0)) := by
  cases htf : tstampField now 1 with
  | error e =>
    rw [snowflake_tstampErr htf] at h
    simp at h
  | ok t =>
    by_cases hne : t ≠ s.lastTimestamp
    · rw [snowflake_newTick htf hne] at h
      cases hnd : nodeField nodeMask 1 with
      | error e => rw [hnd] at h; simp at h
      | ok nd =>
        rw [hnd] at h
        injection h with hv hs
        injection hv with hv2
        exact ⟨t, nd, sub64 n 1, rfl, rfl, hv2.symm, hs.symm,
          Or.inl ⟨hne, rfl⟩⟩
    · push_neg at hne
      rw [snowflake_sameTick htf hne] at h
      by_cases hm : wrap64 (s.seqValue + n) &&& overflowBitsOf 12 = 0
      · rw [if_neg (by simp [hm])] at h
        cases hnd : nodeField nodeMask 1 with
        | error e => rw [hnd] at h; simp at h
        | ok nd =>
          rw [hnd] at h
          injection h with hv hs
          injection hv with hv2
          refine ⟨t, nd, wrap64 (s.seqValue + n), rfl, rfl,
            hv2.symm, ?_, Or.inr ⟨hne, rfl, hm⟩⟩
          rw [← hs, hne]
      · rw [if_pos hm] at h
        simp at h

theorem toInt_eq_of_lt {x : Nat} (h : x < 2 ^ 63) : toInt x = (x : Int) := by
  unfold toInt
  rw [Nat.mod_eq_of_lt (lt_of_lt_of_le h (by decide)), if_pos h]

theorem toInt_eq_of_ge {x : Nat} (h1 : 2 ^ 63 ≤ x) (h2 : x < MOD) :
    toInt x = (x : Int) - 2 ^ 64 := by
  unfold toInt
  rw [Nat.mod_eq_of_lt h2, if_neg (by omega),
    show ((MOD : Nat) : Int) = 2 ^ 64 from by decide]

theorem toInt_wrap_add {v k : Nat} (hv : v < MOD) (hk1 : 1 ≤ k)
    (hk2 : k < 2 ^ 63) (hrange : toInt v + (k : Int) ≤ 2 ^ 63 - 1) :
    toInt (wrap64 (v + k)) = toInt v + k := by
  have hv64 : v < 2 ^ 64 := hv
  by_cases h63 : v < 2 ^ 63
  · rw [toInt_eq_of_lt h63] at hrange ⊢
    have hsum : v + k < 2 ^ 63 := by omega
    rw [show wrap64 (v + k) = v + k from Nat.mod_eq_of_lt
      (show v + k < MOD from show v + k < 2 ^ 64 by omega)]
    rw [toInt_eq_of_lt hsum]
    push_cast
    ring
  · have h1 : 2 ^ 63 ≤ v := Nat.le_of_not_lt h63
    rw [toInt_eq_of_ge h1 hv] at hrange ⊢
    by_cases h2 : v + k < 2 ^ 64
    · rw [show wrap64 (v + k) = v + k from Nat.mod_eq_of_lt h2]
      rw [toInt_eq_of_ge (le_trans h1 (Nat.le_add_right _ _)) h2]
      push_cast
      ring
    · have h2' : 2 ^ 64 ≤ v + k := Nat.le_of_not_lt h2
      have hlt : v + k - 2 ^ 64 < 2 ^ 63 := by omega
      have hwrap : wrap64 (v + k) = v + k - 2 ^ 64 := by
        show (v + k) % 2 ^ 64 = v + k - 2 ^ 64
        omega
      rw [hwrap, toInt_eq_of_lt hlt]
      omega

end Idgen

namespace Idgen

theorem runSeq_cons (k : Nat) (ks : List Nat) (v : Nat) :
    runSeq (k :: ks) v = wrap64 (v + k) :: runSeq ks (wrap64 (v + k)) := rfl

theorem runSeq_master (counts : List Nat) :
    ∀ v : Nat, v < MOD → (∀ k ∈ counts, 1 ≤ k ∧ k < 2 ^ 63) →
      toInt v + (counts.sum : Int) ≤ 2 ^ 63 - 1 →
      List.Chain' (fun a b => toInt a < toInt b) (v :: runSeq counts v) ∧
      toInt ((runSeq counts v).getLastD v) = toInt v + counts.sum := by
  induction counts with
  | nil =>
    intro v hv _ _
    exact ⟨List.chain'_singleton v, by simp [runSeq]⟩
  | cons k ks ih =>
    intro v hv hk hsum
    have hk1 := (hk k (List.mem_cons_self k ks)).1
    have hk2 := (hk k (List.mem_cons_self k ks)).2
    have hsums0 : (k :: ks).sum = k + ks.sum := List.sum_cons
    rw [hsums0, Nat.cast_add] at hsum
    have hkssum : (0 : Int) ≤ (ks.sum : Int) := Int.ofNat_nonneg _
    have hrange : toInt v + (k : Int) ≤ 2 ^ 63 - 1 := by omega
    have hv1 : wrap64 (v + k) < MOD := wrap64_lt _
    have ht1 : toInt (wrap64 (v + k)) = toInt v + k :=
      toInt_wrap_add hv hk1 hk2 hrange
    have ihh := ih (wrap64 (v + k)) hv1
      (fun x hx => hk x (List.mem_cons_of_mem _ hx))
      (by rw [ht1]; omega)
    refine ⟨?_, ?_⟩
    · rw [runSeq_cons, List.chain'_cons]
      exact ⟨by rw [ht1]; omega, ihh.1⟩
    · rw [runSeq_cons, List.getLastD_cons, ihh.2, ht1, hsums0, Nat.cast_add]
      ring

end Idgen

namespace Idgen

/-- Claim C1, counterexample: with node mask 1024 (10-bit overflow), clock 1, count 1
from the initial state, `snowflake.NewIDs` fails with the node-field overflow
error, yet the state differs from the initial one: the last-seen timestamp and
sequence baseline were updated before the failing node check. -/
theorem C1_state_mutated_on_error :
    (snowflakeNewIDs 1024 1 1 mkSnowflake).1 =
      .error (.overflowErr (.constantG 1024) 1024) ∧
    (snowflakeNewIDs 1024 1 1 mkSnowflake).2 ≠ mkSnowflake :=
  ⟨rfl, by decide⟩

/-- Claim C1, amended: every failing step's error is returned unmodified, but shared
state is not always preserved: a timestamp-step failure leaves the state
unchanged; a node-field failure on a tick boundary leaves the last-seen
timestamp and the sequence counter already updated (to the new timestamp and
`n - 1`); a same-tick sequence overflow leaves the counter already advanced
by `n`. -/
theorem C1_error_propagation_and_mutation :
    (∀ nodeMask now n : Nat, ∀ s : Snowflake, ∀ e : Err,
      tstampField now 1 = .error e →
      snowflakeNewIDs nodeMask now n s = (.error e, s)) ∧
    (∀ nodeMask now n t : Nat, ∀ s : Snowflake, ∀ e : Err,
      tstampField now 1 = .ok t → t ≠ s.lastTimestamp →
      nodeField nodeMask 1 = .error e →
      snowflakeNewIDs nodeMask now n s =
        (.error e, { lastTimestamp := t, seqValue := sub64 n 1 })) ∧
    (∀ nodeMask now n t : Nat, ∀ s : Snowflake,
      tstampField now 1 = .ok t → t = s.lastTimestamp →
      wrap64 (s.seqValue + n) &&& overflowBitsOf 12 ≠ 0 →
      snowflakeNewIDs nodeMask now n s =
        (.error (.overflowErr .sequentialG
            (wrap64 (s.seqValue + n) &&& overflowBitsOf 12)),
          { s with seqValue := wrap64 (s.seqValue + n) })) := by
  refine ⟨?_, ?_, ?_⟩
  · intro nodeMask now n s e h
    exact snowflake_tstampErr h
  · intro nodeMask now n t s e ht hne hndE
    rw [snowflake_newTick ht hne, hndE]
  · intro nodeMask now n t s ht heq hm
    rw [snowflake_sameTick ht heq, if_pos hm]

/-- Claim C1, witness: the amended theorem applied at node mask 2048, clock 3,
count 2 from the initial state. -/
theorem C1_error_propagation_and_mutation_witness :
    snowflakeNewIDs 2048 3 2 mkSnowflake =
      (.error (.overflowErr (.constantG 2048) 2048),
        { lastTimestamp := 12582912, seqValue := 1 }) :=
  C1_error_propagation_and_mutation.2.1 2048 3 2 12582912 mkSnowflake
    (.overflowErr (.constantG 2048) 2048) rfl (by decide) rfl

/-- Claim C2, counterexample: a successful call with count 0 at a tick boundary
returns the all-ones pattern (the `int64` value -1), whose sign bit is set. -/
theorem C2_counterexample_negative_id :
    (snowflakeNewIDs 0 1 0 mkSnowflake).1 = .ok (MOD - 1) ∧
    (MOD - 1).testBit 63 = true :=
  ⟨rfl, by decide⟩

/-- Claim C2, amended: every ID returned by a successful `snowflake.NewIDs` call
whose count is a positive `int64` (pattern in `[1, 2^63)`) has a zero sign
bit; the count-0 (and negative-count) tick-boundary calls are the only
exception. -/
theorem C2_sign_bit_zero (nodeMask now n : Nat) (s s1 : Snowflake) (v : Nat)
    (h1 : 1 ≤ n) (h2 : n < 2 ^ 63) (hmask : nodeMask < MOD)
    (hcall : snowflakeNewIDs nodeMask now n s = (.ok v, s1)) :
    v < 2 ^ 63 ∧ v.testBit 63 = false := by
  obtain ⟨t, nd, c, htf, hnd, hv, hs, hpath⟩ := snowflake_ok_inv hcall
  obtain ⟨m, hm41, htm⟩ := tstampField_ok_inv htf
  obtain ⟨hnm10, hndm⟩ := nodeField_ok_inv hmask hnd
  have hc : c < 2 ^ 63 := by
    rcases hpath with ⟨_, hceq⟩ | ⟨_, hceq, hz⟩
    · rw [hceq, sub64_one_eq h1 (lt_trans h2 (by decide))]
      omega
    · have hcM : c < MOD := hceq ▸ wrap64_lt _
      have := (land_ovBits_eq_zero_iff (by omega) hcM).mp hz
      omega
  have ht63 : t < 2 ^ 63 := by
    rw [htm]
    calc m * 2 ^ 22 < 2 ^ 41 * 2 ^ 22 := (Nat.mul_lt_mul_right (by norm_num)).mpr hm41
      _ ≤ 2 ^ 63 := by norm_num
  have hnd63 : nd < 2 ^ 63 := by
    rw [hndm]
    calc nodeMask * 2 ^ 12 < 2 ^ 10 * 2 ^ 12 :=
          (Nat.mul_lt_mul_right (by norm_num)).mpr hnm10
      _ ≤ 2 ^ 63 := by norm_num
  have hv63 : v < 2 ^ 63 := by
    rw [hv]
    exact lor_lt (lor_lt ht63 hnd63) hc
  exact ⟨hv63, Nat.testBit_lt_two_pow hv63⟩

/-- Claim C2, witness: the amended theorem applied to the successful call with node
mask 3, clock 5, count 1 from the initial state, which returns 20983808. -/
theorem C2_sign_bit_zero_witness :
    (20983808 : Nat) < 2 ^ 63 ∧ (20983808 : Nat).testBit 63 = false :=
  C2_sign_bit_zero 3 5 1 mkSnowflake ⟨20971520, 0⟩ 20983808
    (by decide) (by decide) (by decide) rfl

/-- Claim C3, counterexample: a single call requesting 4097 IDs at a tick boundary
succeeds (the tick's first call bypasses the sequence overflow check), even
though 4097 sequence values exceed 4096 within one millisecond. -/
theorem C3_first_call_bypasses_check :
    (snowflakeNewIDs 0 1 4097 mkSnowflake).1 = .ok 4198400 ∧
    (4096 : Nat) < 4097 :=
  ⟨rfl, by decide⟩

/-- Claim C3, amended: a call served on the same-tick path whose accumulated
sequence total reaches 4096 or more fails with the sequence `OverflowError`
(and leaves the counter advanced); only the tick's first call bypasses this
check, so a lone first call may exceed 4096 successfully. -/
theorem C3_same_tick_overflow (nodeMask now n : Nat) (s : Snowflake)
    (ht : tstampField now 1 = .ok s.lastTimestamp)
    (hv : s.seqValue + n < MOD) (hover : 2 ^ 12 ≤ s.seqValue + n) :
    snowflakeNewIDs nodeMask now n s =
      (.error (.overflowErr .sequentialG
          ((s.seqValue + n) &&& overflowBitsOf 12)),
        { s with seqValue := s.seqValue + n }) := by
  have hw : wrap64 (s.seqValue + n) = s.seqValue + n := wrap64_eq_of_lt hv
  have hm : (s.seqValue + n) &&& overflowBitsOf 12 ≠ 0 := by
    intro hz
    exact absurd ((land_ovBits_eq_zero_iff (by omega) hv).mp hz) (by omega)
  rw [snowflake_sameTick ht rfl, hw, if_pos hm]

/-- Claim C3, witness: the amended theorem applied at clock 0 (same tick as the
initial state) and count 5000, which overflows the 12-bit sequence field. -/
theorem C3_same_tick_overflow_witness :
    snowflakeNewIDs 0 0 5000 mkSnowflake =
      (.error (.overflowErr .sequentialG 4096),
        { lastTimestamp := 0, seqValue := 5000 }) :=
  C3_same_tick_overflow 0 0 5000 mkSnowflake rfl (by decide) (by decide)

end Idgen

namespace Idgen

/-- Claim C4, counterexample: at width 63 a wrapped result with bit pattern
`2^64 - 1` is the signed value -1, which is below `2^63`, yet the checker
rejects it with an `OverflowError` — the claimed signed dichotomy fails for
negative values. -/
theorem C4_negative_value_rejected :
    overflowCheckerNewIDs .sequentialG (overflowBitsOf 63)
      (fun _ (u : Unit) => (.ok (MOD - 1), u)) 1 () =
      (.error (.overflowErr .sequentialG (2 ^ 63)), ()) ∧
    toInt (MOD - 1) < 2 ^ 63 :=
  ⟨rfl, by decide⟩

/-- Claim C4, amended: for widths `w ≤ 63` the checker succeeds and returns `v`
unchanged iff the bit pattern `v` is below `2^w` — equivalently, iff the
signed value of `v` lies in `[0, 2^w)` — and fails with an `OverflowError`
carrying the offending bits otherwise; negative signed values are always
rejected. -/
theorem C4_checker_dichotomy (gid : GenId) (w v n : Nat) (hw : w ≤ 63)
    (hv : v < MOD) :
    (v < 2 ^ w →
      overflowCheckerNewIDs gid (overflowBitsOf w)
        (fun _ (u : Unit) => (.ok v, u)) n () = (.ok v, ())) ∧
    (2 ^ w ≤ v →
      overflowCheckerNewIDs gid (overflowBitsOf w)
        (fun _ (u : Unit) => (.ok v, u)) n () =
        (.error (.overflowErr gid (v &&& overflowBitsOf w)), ())) ∧
    (v < 2 ^ w ↔ 0 ≤ toInt v ∧ toInt v < (2 : Int) ^ w) := by
  refine ⟨?_, ?_, ?_⟩
  · intro h
    have hz : v &&& overflowBitsOf w = 0 := (land_ovBits_eq_zero_iff hw hv).mpr h
    simp [overflowCheckerNewIDs, hz]
  · intro h
    have hz : v &&& overflowBitsOf w ≠ 0 := by
      intro h0
      exact absurd ((land_ovBits_eq_zero_iff hw hv).mp h0) (by omega)
    simp [overflowCheckerNewIDs, hz]
  · by_cases h63 : v < 2 ^ 63
    · rw [toInt_eq_of_lt h63]
      constructor
      · intro h
        exact ⟨Int.ofNat_nonneg v, by exact_mod_cast h⟩
      · rintro ⟨_, h⟩
        exact_mod_cast h
    · have h1 : 2 ^ 63 ≤ v := Nat.le_of_not_lt h63
      rw [toInt_eq_of_ge h1 hv]
      constructor
      · intro h
        exact absurd (lt_of_lt_of_le h (two_pow_le_two_pow hw))
          (Nat.not_lt.mpr h1)
      · rintro ⟨h0, _⟩
        exfalso
        have hv2 : v < 2 ^ 64 := hv
        have : (v : Int) < 2 ^ 64 := by exact_mod_cast hv2
        omega

/-- Claim C4, witness: the amended dichotomy applied at width 5, value 7, count 2:
the checker passes 7 through. -/
theorem C4_checker_dichotomy_witness :
    overflowCheckerNewIDs .tstampG (overflowBitsOf 5)
      (fun _ (u : Unit) => (.ok 7, u)) 2 () = (.ok 7, ()) :=
  (C4_checker_dichotomy .tstampG 5 7 2 (by decide) (by decide)).1 (by decide)

/-- Claim C5: the overflow checker delegates to its wrapped generator with the same
count; when the wrapped result is `v`, it fails exactly when
`v &&& ^((1 <<< w) - 1)` is nonzero, with the error carrying those offending
bits and the wrapped generator's identity, and otherwise returns `v`
unchanged (the wrapped generator's state update is kept either way). -/
theorem C5_checker_exact {σ : Type} (gid : GenId) (w : Nat)
    (gen : Nat → σ → Except Err Nat × σ) (n : Nat) (s s1 : σ) (v : Nat)
    (hgen : gen n s = (.ok v, s1)) :
    overflowCheckerNewIDs gid (overflowBitsOf w) gen n s =
      if v &&& overflowBitsOf w ≠ 0 then
        (.error (.overflowErr gid (v &&& overflowBitsOf w)), s1)
      else (.ok v, s1) := by
  unfold overflowCheckerNewIDs
  rw [hgen]

/-- Claim C5, witness: the exact characterization applied at width 2 to a generator
returning 5, whose bit 2 trips the checker with offending bits 4. -/
theorem C5_checker_exact_witness :
    overflowCheckerNewIDs .tstampG (overflowBitsOf 2)
      (fun _ (u : Unit) => (.ok 5, u)) 1 () =
      (.error (.overflowErr .tstampG 4), ()) := by
  rw [C5_checker_exact .tstampG 2 (fun _ (u : Unit) => (.ok 5, u)) 1 () () 5 rfl]
  rw [show (5 : Nat) &&& overflowBitsOf 2 = 4 from by decide]
  rw [if_pos (by decide)]

/-- Claim C6, counterexample: a tick-boundary call with count 4098 succeeds but the
returned ID's low 12 bits are 1, not `count - 1 = 4097` — the sequence value
`n - 1` spills out of the 12-bit field for counts above 4096. -/
theorem C6_counterexample_large_count :
    (snowflakeNewIDs 0 1 4098 mkSnowflake).1 = .ok 4198401 ∧
    (4198401 : Nat) &&& (2 ^ 12 - 1) = 1 ∧
    (4098 : Nat) - 1 = 4097 ∧ (1 : Nat) ≠ 4097 :=
  ⟨rfl, by decide, by decide, by decide⟩

/-- Claim C6, amended: on a tick boundary (timestamp differs from the last-seen
one) with `1 ≤ count ≤ 4096` and a valid node field, the call succeeds, the
internal counter is reset to `count - 1`, the last-seen timestamp is set to
the new value, and the returned ID's low 12 bits equal `count - 1`; for
larger counts the reset still stores `count - 1` but the ID's sequence field
only holds it modulo `2^12`. -/
theorem C6_tick_boundary_reset (nodeMask now n t nd : Nat) (s : Snowflake)
    (ht : tstampField now 1 = .ok t) (hne : t ≠ s.lastTimestamp)
    (hmask : nodeMask < MOD) (hnd : nodeField nodeMask 1 = .ok nd)
    (h1 : 1 ≤ n) (h2 : n ≤ 4096) :
    snowflakeNewIDs nodeMask now n s =
      (.ok (t ||| nd ||| (n - 1)), { lastTimestamp := t, seqValue := n - 1 }) ∧
    (t ||| nd ||| (n - 1)) &&& (2 ^ 12 - 1) = n - 1 := by
  have hsub : sub64 n 1 = n - 1 := sub64_one_eq h1 (by
    have h3 : (4096 : Nat) < MOD := by decide
    omega)
  constructor
  · rw [snowflake_newTick ht hne, hnd, hsub]
  · obtain ⟨m, hm41, htm⟩ := tstampField_ok_inv ht
    obtain ⟨hnm10, hndm⟩ := nodeField_ok_inv hmask hnd
    rw [htm, hndm]
    exact combined_low12 (by omega)

/-- Claim C6, witness: the amended theorem applied at node mask 3, clock 7,
count 10 from the initial state. -/
theorem C6_tick_boundary_reset_witness :
    snowflakeNewIDs 3 7 10 mkSnowflake =
      (.ok (29360128 ||| 12288 ||| 9),
        { lastTimestamp := 29360128, seqValue := 9 }) ∧
    (29360128 ||| 12288 ||| 9) &&& (2 ^ 12 - 1) = 9 :=
  C6_tick_boundary_reset 3 7 10 29360128 12288 mkSnowflake rfl
    (by decide) (by decide) rfl (by decide) (by decide)

end Idgen

namespace Idgen

/-- Claim C7: for two consecutive successful calls with count 1 under the same
clock reading, the second ID's sequence field (low 12 bits) is the first's
plus one, and the timestamp field (bits 22 and above) and node field
(bits 12 to 21) coincide. -/
theorem C7_same_ms_increment (nodeMask now : Nat) (s : Snowflake)
    (hmask : nodeMask < MOD) (v1 v2 : Nat) (s1 s2 : Snowflake)
    (hc1 : snowflakeNewIDs nodeMask now 1 s = (.ok v1, s1))
    (hc2 : snowflakeNewIDs nodeMask now 1 s1 = (.ok v2, s2)) :
    v2 &&& (2 ^ 12 - 1) = (v1 &&& (2 ^ 12 - 1)) + 1 ∧
    v2 >>> 22 = v1 >>> 22 ∧
    (v2 >>> 12) &&& (2 ^ 10 - 1) = (v1 >>> 12) &&& (2 ^ 10 - 1) := by
  obtain ⟨t, nd, c1, htf, hnd, hv1, hs1, hpath1⟩ := snowflake_ok_inv hc1
  obtain ⟨t2, nd2, c2, htf2, hnd2, hv2, hs2eq, hpath2⟩ := snowflake_ok_inv hc2
  have htt : t = t2 := by
    rw [htf] at htf2
    exact Except.ok.inj htf2
  have hndnd : nd = nd2 := by
    rw [hnd] at hnd2
    exact Except.ok.inj hnd2
  have hc1lt : c1 < 2 ^ 12 := by
    rcases hpath1 with ⟨_, hceq⟩ | ⟨_, hceq, hz⟩
    · rw [hceq, show sub64 1 1 = 0 from by decide]
      decide
    · have hcM : c1 < MOD := hceq ▸ wrap64_lt _
      exact (land_ovBits_eq_zero_iff (by omega) hcM).mp hz
  have hs1t : s1.lastTimestamp = t := by rw [hs1]
  have hs1c : s1.seqValue = c1 := by rw [hs1]
  rcases hpath2 with ⟨hne2, _⟩ | ⟨heq2, hc2eq, hz2⟩
  · exact absurd (by rw [hs1t, htt] : t2 = s1.lastTimestamp) hne2
  · have hc2' : c2 = c1 + 1 := by
      rw [hc2eq, hs1c]
      exact wrap64_eq_of_lt (by
        have h1 : (2 : Nat) ^ 12 < MOD := by decide
        omega)
    have hc2lt : c2 < 2 ^ 12 := by
      have hcM : c2 < MOD := hc2eq ▸ wrap64_lt _
      exact (land_ovBits_eq_zero_iff (by omega) hcM).mp hz2
    obtain ⟨m, hm41, htm⟩ := tstampField_ok_inv htf
    obtain ⟨hnm10, hndm⟩ := nodeField_ok_inv hmask hnd
    rw [hv1, hv2, ← htt, ← hndnd, htm, hndm, hc2']
    have hc1' : c1 + 1 < 2 ^ 12 := by omega
    refine ⟨?_, ?_, ?_⟩
    · rw [combined_low12 hc1lt, combined_low12 hc1']
    · rw [combined_shift22 hnm10 hc1lt, combined_shift22 hnm10 hc1']
    · rw [combined_node hnm10 hc1lt, combined_node hnm10 hc1']

/-- Claim C7, witness: the theorem applied to the two consecutive count-1 calls at
node mask 3 and clock 5 from the initial state, returning 20983808 then
20983809. -/
theorem C7_same_ms_increment_witness :
    (20983809 : Nat) &&& (2 ^ 12 - 1) = ((20983808 : Nat) &&& (2 ^ 12 - 1)) + 1 ∧
    (20983809 : Nat) >>> 22 = (20983808 : Nat) >>> 22 ∧
    ((20983809 : Nat) >>> 12) &&& (2 ^ 10 - 1) =
      ((20983808 : Nat) >>> 12) &&& (2 ^ 10 - 1) :=
  C7_same_ms_increment 3 5 mkSnowflake (by decide) 20983808 20983809
    ⟨20971520, 0⟩ ⟨20971520, 1⟩ rfl rfl

/-- Claim C8: construction never fails and performs no node validation (the
initial state is the same for every node mask); with a node mask having any
bit at position 10 or higher and a nonzero in-range clock, the first
`NewIDs` call fails with the `OverflowError` identifying the node-field
(constant) generator and the offending high bits, whatever the count. -/
theorem C8_lazy_node_validation (nodeMask now n : Nat)
    (hnode : nodeMask &&& overflowBitsOf 10 ≠ 0) (hpos : 0 < now)
    (hlt : now < 2 ^ 41) :
    mkSnowflake = { lastTimestamp := 0, seqValue := 0 } ∧
    snowflakeNewIDs nodeMask now n mkSnowflake =
      (.error (.overflowErr (.constantG nodeMask)
          (nodeMask &&& overflowBitsOf 10)),
        { lastTimestamp := now * 2 ^ 22, seqValue := sub64 n 1 }) := by
  refine ⟨rfl, ?_⟩
  have ht := tstampField_ok hlt
  have hne : now * 2 ^ 22 ≠ mkSnowflake.lastTimestamp := by
    show now * 2 ^ 22 ≠ 0
    have h22 : (0 : Nat) < 2 ^ 22 := by decide
    exact Nat.ne_of_gt (Nat.mul_pos hpos h22)
  rw [snowflake_newTick ht hne, nodeField_one, if_pos hnode]

/-- Claim C8, witness: the theorem applied at node mask 4096 (bit 12 set), clock 9,
count 5. -/
theorem C8_lazy_node_validation_witness :
    mkSnowflake = { lastTimestamp := 0, seqValue := 0 } ∧
    snowflakeNewIDs 4096 9 5 mkSnowflake =
      (.error (.overflowErr (.constantG 4096) 4096),
        { lastTimestamp := 9 * 2 ^ 22, seqValue := 4 }) :=
  C8_lazy_node_validation 4096 9 5 (by decide) (by decide) (by decide)

/-- Claim C9, counterexample: a counter seeded at the largest signed value
`2^63 - 1`, called once with count 1, wraps around: the returned pattern
`2^63` is the signed value `-2^63`, not seed + 1. -/
theorem C9_counterexample_wraparound :
    (sequentialNewIDs 1 (2 ^ 63 - 1)).1 = .ok (2 ^ 63) ∧
    toInt (2 ^ 63) ≠ toInt (2 ^ 63 - 1) + 1 :=
  ⟨rfl, by decide⟩

/-- Claim C9, amended: provided no signed-64-bit overflow occurs (seed plus the
total of the counts stays at most `2^63 - 1`), a counter seeded at `s`
returns `s + count` on its first call, repeated calls give strictly
increasing signed values whose last equals `s` plus the sum of all counts,
and a counter seeded at the minimum signed value returns `minInt64 + k`
after one call with any positive count `k` (which can never overflow). -/
theorem C9_sequential_sum :
    (∀ s k : Nat, s < MOD → 1 ≤ k → k < 2 ^ 63 →
      toInt s + (k : Int) ≤ 2 ^ 63 - 1 →
      sequentialNewIDs k (mkSequential s) =
        (.ok (wrap64 (s + k)), wrap64 (s + k)) ∧
      toInt (wrap64 (s + k)) = toInt s + k) ∧
    (∀ counts : List Nat, ∀ s : Nat, s < MOD →
      (∀ k ∈ counts, 1 ≤ k ∧ k < 2 ^ 63) →
      toInt s + (counts.sum : Int) ≤ 2 ^ 63 - 1 →
      List.Chain' (fun a b => toInt a < toInt b)
        (runSeq counts (mkSequential s)) ∧
      toInt ((runSeq counts (mkSequential s)).getLastD (mkSequential s)) =
        toInt s + counts.sum) ∧
    (∀ k : Nat, 1 ≤ k → k < 2 ^ 63 →
      (sequentialNewIDs k minInt64).1 = .ok (minInt64 + k) ∧
      toInt (minInt64 + k) = toInt minInt64 + k) := by
  refine ⟨?_, ?_, ?_⟩
  · intro s k hs hk1 hk2 hrange
    have hms : mkSequential s = s := wrap64_eq_of_lt hs
    constructor
    · unfold sequentialNewIDs
      rw [hms]
    · exact toInt_wrap_add hs hk1 hk2 hrange
  · intro counts s hs hk hsum
    have hms : mkSequential s = s := wrap64_eq_of_lt hs
    rw [hms]
    have master := runSeq_master counts s hs hk hsum
    exact ⟨master.1.tail, master.2⟩
  · intro k hk1 hk2
    simp only [minInt64]
    have h2 : 2 ^ 63 + k < MOD := by
      show 2 ^ 63 + k < 2 ^ 64
      omega
    have hwrap : wrap64 (2 ^ 63 + k) = 2 ^ 63 + k := wrap64_eq_of_lt h2
    constructor
    · show (Except.ok (wrap64 (2 ^ 63 + k)) : Except Err Nat) = .ok (2 ^ 63 + k)
      rw [hwrap]
    · rw [toInt_eq_of_ge (by omega) h2,
        toInt_eq_of_ge (le_refl ((2 : Nat) ^ 63)) (by decide)]
      push_cast
      ring

/-- Claim C9, witness: the amended theorem's three parts applied at seed 5 with
count 3, at seed 0 with counts `[1, 2]`, and at the minimum seed with
count 4. -/
theorem C9_sequential_sum_witness :
    (sequentialNewIDs 3 (mkSequential 5) =
        (.ok (wrap64 (5 + 3)), wrap64 (5 + 3)) ∧
      toInt (wrap64 (5 + 3)) = toInt 5 + 3) ∧
    (List.Chain' (fun a b => toInt a < toInt b)
        (runSeq [1, 2] (mkSequential 0)) ∧
      toInt ((runSeq [1, 2] (mkSequential 0)).getLastD (mkSequential 0)) =
        toInt 0 + ([1, 2] : List Nat).sum) ∧
    ((sequentialNewIDs 4 minInt64).1 = .ok (minInt64 + 4) ∧
      toInt (minInt64 + 4) = toInt minInt64 + 4) :=
  ⟨C9_sequential_sum.1 5 3 (by decide) (by decide) (by decide) (by decide),
    C9_sequential_sum.2.1 [1, 2] 0 (by decide) (by decide) (by decide),
    C9_sequential_sum.2.2 4 (by decide) (by decide)⟩

/-- Claim C10: `sequential.NewIDs(n)` never returns an error for any `int64`
count: it unconditionally adds `n` to the counter (modulo `2^64`) and
returns the new value; count 0 returns the counter unchanged and the
pattern of -1 moves it backwards by one, with no range restriction. -/
theorem C10_sequential_never_errors (n v : Nat) (hv : v < MOD) :
    sequentialNewIDs n v = (.ok (wrap64 (v + n)), wrap64 (v + n)) ∧
    (n = 0 → wrap64 (v + 0) = v) ∧
    (1 ≤ v → wrap64 (v + (MOD - 1)) = v - 1) := by
  refine ⟨rfl, ?_, ?_⟩
  · intro h
    simpa using wrap64_eq_of_lt hv
  · intro h
    show (v + (MOD - 1)) % MOD = v - 1
    have h1 : 0 < MOD := MOD_pos
    have h2 : v + (MOD - 1) = MOD + (v - 1) := by omega
    rw [h2, Nat.add_mod_left]
    exact Nat.mod_eq_of_lt (by omega)

/-- Claim C10, witness: the theorem applied at counter 7 with count 0, plus its
backward-step consequence at the pattern of -1. -/
theorem C10_sequential_never_errors_witness :
    sequentialNewIDs 0 7 = (.ok 7, 7) ∧ wrap64 (7 + 0) = 7 ∧
    wrap64 (7 + (MOD - 1)) = 6 := by
  have h := C10_sequential_never_errors 0 7 (by decide)
  exact ⟨h.1, h.2.1 rfl, h.2.2 (by decide)⟩

end Idgen
